import Mathlib

/-!
Verification development for the logparsely ingestion pipeline and
self-evolving wide-table storage engine.

The definitions below are shallow embeddings of the Rust source:

* `Json`, `flatten_json`, `flatten_json_recursive` — src/ingestion.rs
* `transformation_line`, `write_non_json_line` — the per-line body of
  `transformation` in src/ingestion.rs
* `table_src_name` — the sanitization in `add_src`, src/ingestion.rs
* `EvolvingWideTable`, `insert_data`, `attempt_with_retry` — src/storage.rs
* `SharedState` and the per-source transition system — src/concurrency_helper.rs
  and the thread structure of `transformation`

Machine integers: the Rust code uses `i32` for the child counter and `u32`
for retry counts; neither ever approaches its bounds in the modelled
behaviours, so they are embedded as `Int`/`Nat`.  JSON numbers are embedded
as `Int` (serde_json also supports floats, which no claim touches).
Strings that flow through the flattener are embedded as Lean `String`;
the source-command sanitization works character by character, so commands
are embedded as `List Char`.
-/

namespace Logparsely

/-- A JSON value as parsed by serde_json, with numbers restricted to
integers.  Object fields are kept in the map's iteration order
(serde_json's default `Map` iterates keys in sorted order; the embedding
takes the field list as that order). -/
inductive Json where
  | null : Json
  | bool (b : Bool) : Json
  | num (n : Int) : Json
  | str (s : String) : Json
  | arr (elems : List Json) : Json
  | obj (fields : List (String × Json)) : Json

/-- Lowercase hex digit, as used by serde_json's escape table. -/
def hexDigit (n : Nat) : Char :=
  if n < 10 then Char.ofNat (48 + n) else Char.ofNat (87 + n)

/-- Escape of a single character inside a JSON string, mirroring
serde_json's serializer: quote and backslash are escaped, control
characters below 0x20 use the short forms or a lowercase "u00XX" escape,
everything else is emitted verbatim. -/
def escapeChar (c : Char) : String :=
  if c = '"' then "\\\""
  else if c = '\\' then "\\\\"
  else if c = Char.ofNat 8 then "\\b"
  else if c = Char.ofNat 9 then "\\t"
  else if c = Char.ofNat 10 then "\\n"
  else if c = Char.ofNat 12 then "\\f"
  else if c = Char.ofNat 13 then "\\r"
  else if c.toNat < 32 then
    "\\u00" ++ String.singleton (hexDigit (c.toNat / 16)) ++
      String.singleton (hexDigit (c.toNat % 16))
  else String.singleton c

/-- JSON serialization of a string: surrounding quotes plus escapes. -/
def jsonEscape (s : String) : String :=
  "\"" ++ String.join (s.data.map escapeChar) ++ "\""

/-- Textual form of a scalar JSON value, mirroring `Value::to_string()`
(serde_json's `Display`, i.e. compact JSON serialization) on the arms the
`fallback` branch of `flatten_json_recursive` can receive.  Arrays and
objects never reach that branch; their arms here are dead. -/
def scalarRepr : Json → String
  | .null => "null"
  | .bool true => "true"
  | .bool false => "false"
  | .num n => toString n
  | .str s => jsonEscape s
  | .arr _ => ""
  | .obj _ => ""

/-- Insertion into the result map, mirroring `HashMap::insert`: an
existing binding for the key is overwritten, otherwise the pair is added. -/
def insertPair : List (String × String) → String → String → List (String × String)
  | [], k, v => [(k, v)]
  | (k', v') :: rest, k, v =>
      if k' = k then (k, v) :: rest else (k', v') :: insertPair rest k v

/-- Key-path extension for object fields: `parent.field`, with no
separator when the parent path is empty (`prefix.is_empty()` in the
source). -/
def extendKey (pfx key : String) : String :=
  if pfx = "" then key else pfx ++ "." ++ key

mutual

/-- Embedding of `flatten_json_recursive` (src/ingestion.rs:29-51).  The
mutable `result` map is threaded explicitly; the `fallback` match arm
inserts the scalar's `to_string()` at the current path. -/
def flatten_json_recursive : Json → String → List (String × String) → List (String × String)
  | .obj fields, pfx, result => flatten_fields fields pfx result
  | .arr elems, pfx, result => flatten_elems elems 0 pfx result
  | fallback, pfx, result => insertPair result pfx (scalarRepr fallback)

/-- The `Value::Object` loop of `flatten_json_recursive`. -/
def flatten_fields : List (String × Json) → String → List (String × String) → List (String × String)
  | [], _, result => result
  | (key, value) :: rest, pfx, result =>
      flatten_fields rest pfx (flatten_json_recursive value (extendKey pfx key) result)

/-- The `Value::Array` loop of `flatten_json_recursive`, with the
`enumerate` index threaded explicitly. -/
def flatten_elems : List Json → Nat → String → List (String × String) → List (String × String)
  | [], _, _, result => result
  | value :: rest, index, pfx, result =>
      flatten_elems rest (index + 1) pfx
        (flatten_json_recursive value (pfx ++ "[" ++ toString index ++ "]") result)

end

/-- Embedding of `flatten_json` (src/ingestion.rs:23-27): flatten from
the empty path into an empty map. -/
def flatten_json (json : Json) : List (String × String) :=
  flatten_json_recursive json "" []

/-! ### Reference flattener from the spec's words (§4.1) -/
/-- The spec's stringRepresentation of a scalar leaf as literally written:
"numbers, booleans, null rendered as their literal text; strings
unquoted". -/
def spec_leaf_repr : Json → String
  | .null => "null"
  | .bool true => "true"
  | .bool false => "false"
  | .num n => toString n
  | .str s => s
  | .arr _ => ""
  | .obj _ => ""

mutual

/-- Modelled from the spec's reference definition of flattening (§4.1),
parameterized by the leaf representation: the list of (path, leaf text)
pairs in traversal order — objects recurse with `parent.field` (no
separator for an empty parent), arrays with `parent[i]`, scalars emit a
single pair.  The spec's "insert" of each pair into the resulting mapping
is `insertAll` below. -/
def spec_flatten_pairs (leafRepr : Json → String) : Json → String → List (String × String)
  | .obj fields, path => spec_fields_pairs leafRepr fields path
  | .arr elems, path => spec_elems_pairs leafRepr elems 0 path
  | j, path => [(path, leafRepr j)]

/-- Field-by-field pairs of the spec's reference flattening of an object. -/
def spec_fields_pairs (leafRepr : Json → String) : List (String × Json) → String → List (String × String)
  | [], _ => []
  | (key, value) :: rest, path =>
      spec_flatten_pairs leafRepr value (extendKey path key) ++
        spec_fields_pairs leafRepr rest path

/-- Element-by-element pairs of the spec's reference flattening of an array. -/
def spec_elems_pairs (leafRepr : Json → String) : List Json → Nat → String → List (String × String)
  | [], _, _ => []
  | value :: rest, index, path =>
      spec_flatten_pairs leafRepr value (path ++ "[" ++ toString index ++ "]") ++
        spec_elems_pairs leafRepr rest (index + 1) path

end

/-- Insertion of a list of pairs, left to right, into an accumulated map. -/
def insertAll (acc : List (String × String)) (pairs : List (String × String)) : List (String × String) :=
  pairs.foldl (fun a kv => insertPair a kv.1 kv.2) acc

/-- The mapping the spec's reference definition produces, with the
spec's literal leaf representation (strings unquoted). -/
def spec_flatten_as_written (json : Json) : List (String × String) :=
  insertAll [] (spec_flatten_pairs spec_leaf_repr json "")

/-- The mapping the spec's reference definition produces, with string
leaves rendered as their JSON serialization (quoted) — the amendment
forced by the code. -/
def spec_flatten_amended (json : Json) : List (String × String) :=
  insertAll [] (spec_flatten_pairs scalarRepr json "")

/-! ### Per-line ingestion (src/ingestion.rs, `transformation` loop body) -/
/-- The reserved fallback column name (src/storage.rs:16). -/
def RAW_UNPARSABLE_COL : String := "raw_unparsable_line"

/-- Whether `json_val.as_object()` is `Some`, i.e. the top-level value is
an object. -/
def Json.is_object_value : Json → Bool
  | .obj _ => true
  | _ => false

/-- Whether a JSON value is a scalar — neither an object nor an array,
i.e. exactly the values the `fallback` arm of `flatten_json_recursive`
can receive. -/
def Json.is_scalar : Json → Bool
  | .obj _ => false
  | .arr _ => false
  | _ => true

/-- Embedding of `write_non_json_line` (src/ingestion.rs:146-156): the
one-field fallback record handed to `insert_data` for a line that failed
JSON parsing. -/
def write_non_json_line (line : String) : List (String × String) :=
  insertPair [] RAW_UNPARSABLE_COL line

/-- What the per-line body of `transformation` does with one line:
either a record is handed to `insert_data`, or the line is skipped
(`continue`). -/
inductive LineOutcome where
  | inserted (record : List (String × String)) : LineOutcome
  | skipped : LineOutcome
deriving DecidableEq

/-- Embedding of the per-line body of `transformation`
(src/ingestion.rs:109-134).  `parsed` is the result of
`serde_json::from_str` on the line (`none` = parse failure): on a parse
failure the fallback record is inserted; on a successful parse whose
top-level value is not an object the line is logged and skipped; on an
object it is flattened and inserted. -/
def transformation_line (line : String) : Option Json → LineOutcome
  | some json_val =>
      if json_val.is_object_value then .inserted (flatten_json json_val)
      else .skipped
  | none => .inserted (write_non_json_line line)

/-! ### Table-name sanitization (src/ingestion.rs, `add_src`) -/
/-- Replacement of every occurrence of the character `pat` by the string
`sub`, mirroring Rust's `str::replace` for a single-character pattern. -/
def replace_all : List Char → Char → List Char → List Char
  | [], _, _ => []
  | c :: cs, pat, sub => (if c = pat then sub else [c]) ++ replace_all cs pat sub

/-- Embedding of the sanitization chain in `add_src`
(src/ingestion.rs:190-196): space, dot, dash, slash and backslash each
become an underscore, and tilde becomes "HOME". -/
def table_src_name (cmd : List Char) : List Char :=
  replace_all (replace_all (replace_all (replace_all (replace_all (replace_all
    cmd ' ' ['_']) '.' ['_']) '-' ['_']) '/' ['_']) '\\' ['_']) '~' ['H', 'O', 'M', 'E']

/-- Character-by-character form of the sanitization: the joint
replacement applied to each character independently. -/
def sanitize_char (c : Char) : List Char :=
  if c = ' ' ∨ c = '.' ∨ c = '-' ∨ c = '/' ∨ c = '\\' then ['_']
  else if c = '~' then ['H', 'O', 'M', 'E']
  else [c]

/-- Concatenation of a character-wise expansion over a command string. -/
def char_by_char (f : Char → List Char) : List Char → List Char
  | [] => []
  | c :: cs => f c ++ char_by_char f cs

/-! ### Storage (src/storage.rs) -/
/-- Embedding of `StorageInsertionError` (src/storage.rs:30-34); the
boxed dynamic errors are embedded as their message strings. -/
inductive StorageInsertionError where
  | LockError (msg : String) : StorageInsertionError
  | RecordInsertionError (e : String) : StorageInsertionError
  | SchemaManipulationError (e : String) : StorageInsertionError
deriving DecidableEq

/-- `MAX_DB_WRITE_ATTEMPTS` (src/storage.rs:119). -/
def MAX_DB_WRITE_ATTEMPTS : Nat := 3

/-- The while loop of `attempt_with_retry` (src/storage.rs:230-235):
`remaining` is `max_attempts - attempt`, `i` the call index of the next
invocation of `f`, and the last argument the previous invocation's
result. -/
def retry_go {T : Type} (f : Nat → Except String T) :
    Nat → Nat → Except String T → Except String T
  | _, _, .ok t => .ok t
  | 0, _, .error e => .error e
  | remaining + 1, i, .error _ => retry_go f remaining (i + 1) (f i)

/-- Embedding of `attempt_with_retry` (src/storage.rs:219-237).  The
fallible unit of work is embedded as the sequence of outcomes of its
successive invocations: `f i` is what the (i+1)-th call returns (the
sleep between attempts has no observable effect on the result).  The
closure is invoked once up front and then again, up to `max_attempts`
more times, while the result is an error. -/
def attempt_with_retry {T : Type} (max_attempts : Nat) (f : Nat → Except String T) :
    Except String T :=
  retry_go f max_attempts 1 (f 0)

/-- Embedding of `EvolvingWideTable` (src/storage.rs:54-59): the
in-memory `HashSet` of known columns is embedded as a list, read up to
membership. -/
structure EvolvingWideTable where
  col_lookup : List String
  table_name : String

/-- The new-column scan at the top of `insert_data`
(src/storage.rs:143-150): walks the record's keys, collecting each key
not yet known and adding it to the in-memory lookup as it goes.  Returns
the `new_cols` vector and the updated lookup. -/
def scan_new_cols : List String → List (String × String) → List String × List String
  | lookup, [] => ([], lookup)
  | lookup, (key, _) :: rest =>
      if key ∈ lookup then scan_new_cols lookup rest
      else
        let r := scan_new_cols (lookup ++ [key]) rest
        (key :: r.1, r.2)

/-- Embedding of `insert_data` (src/storage.rs:138-217).  The SQLite
side is embedded as the table's column list `db_cols` plus oracles:
`lock_ok` says whether the shared-connection lock is acquired, and
`migF` / `insF` give the outcomes of the successive invocations of the
schema-alter and row-insert closures.  The migration batch is a single
BEGIN/COMMIT transaction, so on success the table gains exactly the new
columns and on failure none.  Returns the updated in-memory table, the
updated table column list, and the call's result. -/
def insert_data (t : EvolvingWideTable) (db_cols : List String)
    (data : List (String × String)) (lock_ok : Bool)
    (migF : Nat → Except String Unit) (insF : Nat → Except String Nat) :
    EvolvingWideTable × List String × Except StorageInsertionError Unit :=
  let scanned := scan_new_cols t.col_lookup data
  let t' : EvolvingWideTable := { t with col_lookup := scanned.2 }
  if lock_ok = false then
    (t', db_cols, .error (.LockError "PoisonError"))
  else
    match attempt_with_retry MAX_DB_WRITE_ATTEMPTS migF with
    | .error e => (t', db_cols, .error (.SchemaManipulationError e))
    | .ok _ =>
        match attempt_with_retry MAX_DB_WRITE_ATTEMPTS insF with
        | .error e => (t', db_cols ++ scanned.1, .error (.RecordInsertionError e))
        | .ok _ => (t', db_cols ++ scanned.1, .ok ())

/-- Embedding of `EvolvingWideTable::new` (src/storage.rs:71-117) on a
database in which the table does not yet exist: the table is created
with just the fallback column and its catalog read back into the
in-memory lookup.  Returns the store and the table's column list. -/
def EvolvingWideTable.new_fresh (table_name : String) : EvolvingWideTable × List String :=
  ({ col_lookup := [RAW_UNPARSABLE_COL], table_name := table_name }, [RAW_UNPARSABLE_COL])

/-- One call to `insert_data` in a run: the record plus the oracles for
that call. -/
structure InsertCall where
  data : List (String × String)
  lock_ok : Bool
  migF : Nat → Except String Unit
  insF : Nat → Except String Nat

/-- A sequence of `insert_data` calls against the same table. -/
def run_inserts : EvolvingWideTable → List String → List InsertCall →
    EvolvingWideTable × List String
  | t, db_cols, [] => (t, db_cols)
  | t, db_cols, call :: rest =>
      let r := insert_data t db_cols call.data call.lock_ok call.migF call.insF
      run_inserts r.1 r.2.1 rest

/-- Modelled from the claim's words for C5: attempt the operation up to
`total` attempts in all, return the first success, and after exhausting
the attempts surface the last error. -/
def spec_retry_total {T : Type} : Nat → (Nat → Except String T) → Except String T
  | 0, f => f 0
  | 1, f => f 0
  | n + 2, f =>
      match f 0 with
      | .ok t => .ok t
      | .error _ => spec_retry_total (n + 1) (fun i => f (i + 1))

/-! ### Shutdown coordinator (src/concurrency_helper.rs) -/
/-- Embedding of `SharedState` (src/concurrency_helper.rs:13-22): the
mutex-protected stop flag and child counter.  The two condition
variables carry no state of their own — what a woken thread observes is
the flag or counter it re-checks — so they are embedded through the
return conditions of the waiting operations and the notification fired
by the decrement. -/
structure SharedState where
  should_stop : Bool
  child_ctr : Int
deriving DecidableEq

/-- Embedding of `SharedState::new` (src/concurrency_helper.rs:28-35). -/
def SharedState.new : SharedState :=
  { should_stop := false, child_ctr := 0 }

/-- Embedding of `SharedState::stop` (src/concurrency_helper.rs:40-44):
sets the flag to true and notifies all threads waiting on `cnd`. -/
def SharedState.stop (s : SharedState) : SharedState :=
  { s with should_stop := true }

/-- Condition under which `wait_for_stop_signal`
(src/concurrency_helper.rs:47-52) returns: its while loop exits exactly
when the stop flag is true. -/
def SharedState.wait_for_stop_signal_returns (s : SharedState) : Prop :=
  s.should_stop = true

/-- Embedding of `SharedState::incr` (src/concurrency_helper.rs:57-60). -/
def SharedState.incr (s : SharedState) : SharedState :=
  { s with child_ctr := s.child_ctr + 1 }

/-- Embedding of `decr_and_notify_all_children_done_awaiters`
(src/concurrency_helper.rs:66-72): decrements the counter and reports
whether the `all_children_done` notification fired (the decremented
counter equals 0). -/
def SharedState.decr_and_notify_all_children_done_awaiters (s : SharedState) :
    SharedState × Bool :=
  ({ s with child_ctr := s.child_ctr - 1 }, s.child_ctr - 1 == 0)

/-- Condition under which `wait_all_children_done`
(src/concurrency_helper.rs:75-80) returns: its while loop exits exactly
when the counter is not positive. -/
def SharedState.wait_all_children_done_returns (s : SharedState) : Prop :=
  ¬s.child_ctr > 0

/-- The mutating operations of `SharedState`. -/
inductive SSOp where
  | stopOp : SSOp
  | incrOp : SSOp
  | decrOp : SSOp
deriving DecidableEq

/-- Effect of one `SharedState` operation on the protected state. -/
def ssApply : SSOp → SharedState → SharedState
  | .stopOp, s => s.stop
  | .incrOp, s => s.incr
  | .decrOp, s => (s.decr_and_notify_all_children_done_awaiters).1

/-- A sequence of `SharedState` operations applied in order. -/
def ssRun : List SSOp → SharedState → SharedState
  | [], s => s
  | op :: rest, s => ssRun rest (ssApply op s)

/-- Number of `incr` calls in a trace. -/
def countIncr : List SSOp → Nat
  | [] => 0
  | .incrOp :: rest => countIncr rest + 1
  | _ :: rest => countIncr rest

/-- Number of decrement calls in a trace. -/
def countDecr : List SSOp → Nat
  | [] => 0
  | .decrOp :: rest => countDecr rest + 1
  | _ :: rest => countDecr rest

/-! ### Per-source lifecycle (src/ingestion.rs `transformation` and `add_src`) -/
/-- Program counter of the monitor thread (src/ingestion.rs:88-107):
blocked in `wait_for_stop_signal`; woken (stop observed, child killed if
still running, about to decrement); or done (decremented and
returned). -/
inductive MonitorPC where
  | waiting : MonitorPC
  | woken : MonitorPC
  | done : MonitorPC
deriving DecidableEq

/-- Program counter of the ingestion thread running `transformation`:
reading lines; joining the monitor (read loop ended at end-of-stream,
blocked in `monitor.join()`); or finished (`transformation`
returned). -/
inductive IngestPC where
  | reading : IngestPC
  | joining : IngestPC
  | finished : IngestPC
deriving DecidableEq

/-- Joint state of one source on the normal path (wide-table creation
succeeded): the shared coordinator plus the child process and the two
threads spawned for the source. -/
structure SrcState where
  shared : SharedState
  childRunning : Bool
  eofReached : Bool
  monitorPC : MonitorPC
  ingestPC : IngestPC
deriving DecidableEq

/-- State right after `add_src` (src/ingestion.rs:178-212) on the
normal path: `incr` has run once, the child process is alive, the
monitor is waiting for the stop signal and the ingestion thread is
reading. -/
def srcInit : SrcState :=
  { shared := SharedState.new.incr, childRunning := true, eofReached := false,
    monitorPC := .waiting, ingestPC := .reading }

/-- One interleaving step of the per-source system.  The label is true
exactly for the `signalStop` step (`SharedState::stop`, called by the
orchestrator).  `child_exit` is the external process terminating on its
own, which closes its stdout (end-of-stream).  `monitor_wake` is
`wait_for_stop_signal` returning — possible only with the stop flag set
— followed by the monitor's try_wait/kill (src/ingestion.rs:96-103),
after which the child is certainly dead; `monitor_decr` is the
monitor's final `decr_and_notify_all_children_done_awaiters`.
`ingest_eof` is the read loop ending at end-of-stream, and
`ingest_join` is `monitor.join()` returning, which requires the monitor
thread to have finished. -/
inductive SrcStep : SrcState → Bool → SrcState → Prop where
  | signal_stop (s : SrcState) :
      SrcStep s true { s with shared := s.shared.stop }
  | child_exit (s : SrcState) (h : s.childRunning = true) :
      SrcStep s false { s with childRunning := false, eofReached := true }
  | monitor_wake (s : SrcState) (h : s.shared.should_stop = true)
      (hpc : s.monitorPC = .waiting) :
      SrcStep s false { s with childRunning := false, eofReached := true, monitorPC := .woken }
  | monitor_decr (s : SrcState) (hpc : s.monitorPC = .woken) :
      SrcStep s false { s with shared := (s.shared.decr_and_notify_all_children_done_awaiters).1, monitorPC := .done }
  | ingest_eof (s : SrcState) (h : s.eofReached = true) (hpc : s.ingestPC = .reading) :
      SrcStep s false { s with ingestPC := .joining }
  | ingest_join (s : SrcState) (hm : s.monitorPC = .done) (hpc : s.ingestPC = .joining) :
      SrcStep s false { s with ingestPC := .finished }

/-- States reachable from `srcInit` by arbitrary steps. -/
inductive SrcReach : SrcState → Prop where
  | init : SrcReach srcInit
  | step {s s' : SrcState} {b : Bool} (hr : SrcReach s) (hs : SrcStep s b s') : SrcReach s'

/-- States reachable from `srcInit` without `signalStop` ever being
called. -/
inductive SrcReachNoStop : SrcState → Prop where
  | init : SrcReachNoStop srcInit
  | step {s s' : SrcState} (hr : SrcReachNoStop s) (hs : SrcStep s false s') :
      SrcReachNoStop s'

/-- Concrete fully-succeeding call inserting the record x=1. -/
def call_x : InsertCall :=
  { data := [("x", "1")], lock_ok := true, migF := fun _ => Except.ok (),
    insF := fun _ => Except.ok 1 }

/-- Concrete fully-succeeding call inserting the record y=2. -/
def call_y : InsertCall :=
  { data := [("y", "2")], lock_ok := true, migF := fun _ => Except.ok (),
    insF := fun _ => Except.ok 1 }

theorem insertAll_append (acc : List (String × String)) (xs ys : List (String × String)) :
    insertAll acc (xs ++ ys) = insertAll (insertAll acc xs) ys := by
  simp [insertAll, List.foldl_append]

mutual

/-- Accumulator fusion: the source's destructive-insert traversal agrees
with inserting the spec's leaf pairs in traversal order. -/
theorem flatten_eq_insertAll (j : Json) (pfx : String) (acc : List (String × String)) :
    flatten_json_recursive j pfx acc = insertAll acc (spec_flatten_pairs scalarRepr j pfx) := by
  match j with
  | .obj fields =>
      simp only [flatten_json_recursive, spec_flatten_pairs]
      exact flatten_fields_eq_insertAll fields pfx acc
  | .arr elems =>
      simp only [flatten_json_recursive, spec_flatten_pairs]
      exact flatten_elems_eq_insertAll elems 0 pfx acc
  | .null => simp [flatten_json_recursive, spec_flatten_pairs, insertAll]
  | .bool b => simp [flatten_json_recursive, spec_flatten_pairs, insertAll]
  | .num n => simp [flatten_json_recursive, spec_flatten_pairs, insertAll]
  | .str s => simp [flatten_json_recursive, spec_flatten_pairs, insertAll]

theorem flatten_fields_eq_insertAll (fields : List (String × Json)) (pfx : String)
    (acc : List (String × String)) :
    flatten_fields fields pfx acc = insertAll acc (spec_fields_pairs scalarRepr fields pfx) := by
  match fields with
  | [] => simp [flatten_fields, spec_fields_pairs, insertAll]
  | (key, value) :: rest =>
      simp only [flatten_fields, spec_fields_pairs]
      rw [flatten_fields_eq_insertAll rest pfx, flatten_eq_insertAll value (extendKey pfx key) acc,
        insertAll_append]

theorem flatten_elems_eq_insertAll (elems : List Json) (index : Nat) (pfx : String)
    (acc : List (String × String)) :
    flatten_elems elems index pfx acc =
      insertAll acc (spec_elems_pairs scalarRepr elems index pfx) := by
  match elems with
  | [] => simp [flatten_elems, spec_elems_pairs, insertAll]
  | value :: rest =>
      simp only [flatten_elems, spec_elems_pairs]
      rw [flatten_elems_eq_insertAll rest (index + 1) pfx,
        flatten_eq_insertAll value (pfx ++ "[" ++ toString index ++ "]") acc,
        insertAll_append]

end

theorem replace_all_append (xs ys : List Char) (pat : Char) (sub : List Char) :
    replace_all (xs ++ ys) pat sub = replace_all xs pat sub ++ replace_all ys pat sub := by
  induction xs with
  | nil => simp [replace_all]
  | cons c cs ih => simp [replace_all, ih]

theorem table_src_name_append (xs ys : List Char) :
    table_src_name (xs ++ ys) = table_src_name xs ++ table_src_name ys := by
  simp [table_src_name, replace_all_append]

theorem table_src_name_single (c : Char) : table_src_name [c] = sanitize_char c := by
  by_cases h1 : c = ' '
  · subst h1; decide
  by_cases h2 : c = '.'
  · subst h2; decide
  by_cases h3 : c = '-'
  · subst h3; decide
  by_cases h4 : c = '/'
  · subst h4; decide
  by_cases h5 : c = '\\'
  · subst h5; decide
  by_cases h6 : c = '~'
  · subst h6; decide
  simp [table_src_name, replace_all, sanitize_char, h1, h2, h3, h4, h5, h6]

/-! ### Supporting lemmas for the storage theorems -/
theorem scan_new_cols_snd (data : List (String × String)) :
    ∀ lookup : List String,
      (scan_new_cols lookup data).2 = lookup ++ (scan_new_cols lookup data).1 := by
  induction data with
  | nil => intro lookup; simp [scan_new_cols]
  | cons kv rest ih =>
      intro lookup
      obtain ⟨key, v⟩ := kv
      by_cases h : key ∈ lookup
      · simp [scan_new_cols, h, ih]
      · simp [scan_new_cols, h, ih (lookup ++ [key])]

theorem scan_new_cols_new_mem (data : List (String × String)) :
    ∀ (lookup : List String) (k : String),
      k ∈ (scan_new_cols lookup data).1 ↔ k ∉ lookup ∧ k ∈ data.map Prod.fst := by
  induction data with
  | nil => intro lookup k; simp [scan_new_cols]
  | cons kv rest ih =>
      intro lookup k
      obtain ⟨key, v⟩ := kv
      by_cases h : key ∈ lookup
      · simp only [scan_new_cols, if_pos h, ih, List.map_cons, List.mem_cons]
        constructor
        · rintro ⟨hk, hr⟩; exact ⟨hk, Or.inr hr⟩
        · rintro ⟨hk, hkey | hr⟩
          · exact absurd (hkey ▸ h) hk
          · exact ⟨hk, hr⟩
      · simp only [scan_new_cols, if_neg h, List.mem_cons, ih, List.mem_append,
          List.mem_singleton, List.map_cons]
        by_cases hkk : k = key
        · subst hkk; simp [h]
        · simp only [hkk, false_or]
          constructor
          · rintro ⟨hk, hr⟩
            exact ⟨fun hc => hk (Or.inl hc), hr⟩
          · rintro ⟨hk, hr⟩
            exact ⟨fun hc => hc.elim hk (fun hnil => absurd hnil (List.not_mem_nil k)), hr⟩

theorem scan_new_cols_lookup_mem (data : List (String × String))
    (lookup : List String) (k : String) :
    k ∈ (scan_new_cols lookup data).2 ↔ k ∈ lookup ∨ k ∈ data.map Prod.fst := by
  rw [scan_new_cols_snd, List.mem_append, scan_new_cols_new_mem]
  constructor
  · rintro (hl | ⟨_, hr⟩)
    · exact Or.inl hl
    · exact Or.inr hr
  · rintro (hl | hr)
    · exact Or.inl hl
    · by_cases hk : k ∈ lookup
      · exact Or.inl hk
      · exact Or.inr ⟨hk, hr⟩

theorem insert_data_fst (t : EvolvingWideTable) (db_cols : List String)
    (data : List (String × String)) (lock_ok : Bool)
    (migF : Nat → Except String Unit) (insF : Nat → Except String Nat) :
    (insert_data t db_cols data lock_ok migF insF).1 =
      { t with col_lookup := (scan_new_cols t.col_lookup data).2 } := by
  simp only [insert_data]
  split
  · rfl
  · split
    · rfl
    · split
      · rfl
      · rfl

theorem insert_data_cols_mig_ok (t : EvolvingWideTable) (db_cols : List String)
    (data : List (String × String))
    (migF : Nat → Except String Unit) (insF : Nat → Except String Nat)
    (h : attempt_with_retry MAX_DB_WRITE_ATTEMPTS migF = .ok ()) :
    (insert_data t db_cols data true migF insF).2.1 =
      db_cols ++ (scan_new_cols t.col_lookup data).1 := by
  simp only [insert_data, h]
  split
  · contradiction
  · split <;> rfl

theorem insert_data_cols_mono (t : EvolvingWideTable) (db_cols : List String)
    (data : List (String × String)) (lock_ok : Bool)
    (migF : Nat → Except String Unit) (insF : Nat → Except String Nat)
    (col : String) (h : col ∈ db_cols) :
    col ∈ (insert_data t db_cols data lock_ok migF insF).2.1 := by
  simp only [insert_data]
  split
  · exact h
  · split
    · exact h
    · split
      · exact List.mem_append_left _ h
      · exact List.mem_append_left _ h

theorem retry_go_ok_result {T : Type} (f : Nat → Except String T) (n i : Nat) (t : T) :
    retry_go f n i (.ok t) = .ok t := by
  cases n <;> rfl

theorem retry_go_err_step {T : Type} (f : Nat → Except String T) (n i : Nat) (e : String) :
    retry_go f (n + 1) i (.error e) = retry_go f n (i + 1) (f i) := rfl

theorem retry_go_last_error {T : Type} (f : Nat → Except String T) :
    ∀ (n i : Nat) (e : String),
      (∀ j, j < n → ∃ e', f (i + j) = .error e') →
      retry_go f (n + 1) i (.error e) = f (i + n) := by
  intro n
  induction n with
  | zero =>
      intro i e _
      rw [retry_go_err_step]
      cases hf : f i
      · simp [retry_go, hf]
      · simp [retry_go_ok_result, hf]
  | succ m ih =>
      intro i e h
      rw [retry_go_err_step]
      obtain ⟨e0, he0⟩ := h 0 (Nat.succ_pos m)
      rw [Nat.add_zero] at he0
      rw [he0, ih (i + 1) e0 (fun j hj => by
        obtain ⟨e', he'⟩ := h (j + 1) (Nat.succ_lt_succ hj)
        exact ⟨e', by rw [show i + 1 + j = i + (j + 1) by omega]; exact he'⟩)]
      congr 1
      omega

theorem retry_go_first_ok {T : Type} (f : Nat → Except String T) :
    ∀ (m n i : Nat) (t : T) (e : String),
      m < n → f (i + m) = .ok t →
      (∀ j, j < m → ∃ e', f (i + j) = .error e') →
      retry_go f n i (.error e) = .ok t := by
  intro m
  induction m with
  | zero =>
      intro n i t e hn hok _
      obtain ⟨n', rfl⟩ : ∃ n', n = n' + 1 := ⟨n - 1, by omega⟩
      rw [retry_go_err_step]
      rw [Nat.add_zero] at hok
      rw [hok, retry_go_ok_result]
  | succ m ih =>
      intro n i t e hn hok herr
      obtain ⟨n', rfl⟩ : ∃ n', n = n' + 1 := ⟨n - 1, by omega⟩
      rw [retry_go_err_step]
      obtain ⟨e0, he0⟩ := herr 0 (Nat.succ_pos m)
      rw [Nat.add_zero] at he0
      rw [he0]
      refine ih n' (i + 1) t e0 (by omega)
        (by rw [show i + 1 + m = i + (m + 1) by omega]; exact hok)
        (fun j hj => ?_)
      obtain ⟨e', he'⟩ := herr (j + 1) (Nat.succ_lt_succ hj)
      exact ⟨e', by rw [show i + 1 + j = i + (j + 1) by omega]; exact he'⟩

theorem attempt_with_retry_all_error {T : Type} (max_attempts : Nat)
    (f : Nat → Except String T)
    (h : ∀ i, i ≤ max_attempts → ∃ e, f i = Except.error e) :
    attempt_with_retry max_attempts f = f max_attempts := by
  cases max_attempts with
  | zero =>
      obtain ⟨e, he⟩ := h 0 (Nat.le_refl 0)
      rw [attempt_with_retry, he]
      rfl
  | succ m =>
      obtain ⟨e, he⟩ := h 0 (Nat.zero_le _)
      rw [attempt_with_retry, he,
        retry_go_last_error f m 1 e (fun j hj => h (1 + j) (by omega))]
      congr 1
      omega

theorem attempt_with_retry_first_ok {T : Type} (max_attempts i : Nat)
    (f : Nat → Except String T) (t : T)
    (hle : i ≤ max_attempts) (hok : f i = .ok t)
    (herr : ∀ j, j < i → ∃ e, f j = .error e) :
    attempt_with_retry max_attempts f = .ok t := by
  cases i with
  | zero => rw [attempt_with_retry, hok, retry_go_ok_result]
  | succ k =>
      obtain ⟨e0, he0⟩ := herr 0 (Nat.succ_pos k)
      rw [attempt_with_retry, he0]
      refine retry_go_first_ok f k max_attempts 1 t e0 (by omega)
        (by rw [show 1 + k = k + 1 by omega]; exact hok) (fun j hj => ?_)
      obtain ⟨e', he'⟩ := herr (j + 1) (Nat.succ_lt_succ hj)
      exact ⟨e', by rw [show 1 + j = j + 1 by omega]; exact he'⟩

theorem insert_data_mig_error (t : EvolvingWideTable) (db_cols : List String)
    (data : List (String × String))
    (migF : Nat → Except String Unit) (insF : Nat → Except String Nat) (e : String)
    (h : attempt_with_retry MAX_DB_WRITE_ATTEMPTS migF = Except.error e) :
    (insert_data t db_cols data true migF insF).2.2 =
        Except.error (StorageInsertionError.SchemaManipulationError e) ∧
      (insert_data t db_cols data true migF insF).2.1 = db_cols := by
  simp only [insert_data, h]
  constructor
  · split
    · contradiction
    · rfl
  · split
    · contradiction
    · rfl

theorem insert_data_ins_error (t : EvolvingWideTable) (db_cols : List String)
    (data : List (String × String))
    (migF : Nat → Except String Unit) (insF : Nat → Except String Nat) (e : String)
    (hmig : attempt_with_retry MAX_DB_WRITE_ATTEMPTS migF = Except.ok ())
    (hins : attempt_with_retry MAX_DB_WRITE_ATTEMPTS insF = Except.error e) :
    (insert_data t db_cols data true migF insF).2.2 =
      Except.error (StorageInsertionError.RecordInsertionError e) := by
  simp only [insert_data, hmig, hins]
  split
  · contradiction
  · rfl

theorem insert_data_both_ok (t : EvolvingWideTable) (db_cols : List String)
    (data : List (String × String))
    (migF : Nat → Except String Unit) (insF : Nat → Except String Nat) (rows : Nat)
    (hmig : attempt_with_retry MAX_DB_WRITE_ATTEMPTS migF = Except.ok ())
    (hins : attempt_with_retry MAX_DB_WRITE_ATTEMPTS insF = Except.ok rows) :
    (insert_data t db_cols data true migF insF).2.2 = Except.ok () := by
  simp only [insert_data, hmig, hins]
  split
  · contradiction
  · rfl

theorem ssRun_ctr (ops : List SSOp) :
    ∀ s : SharedState,
      (ssRun ops s).child_ctr = s.child_ctr + countIncr ops - countDecr ops := by
  induction ops with
  | nil => intro s; simp [ssRun, countIncr, countDecr]
  | cons op rest ih =>
      intro s
      cases op with
      | stopOp =>
          rw [show ssRun (SSOp.stopOp :: rest) s = ssRun rest s.stop from rfl, ih]
          simp [SharedState.stop, countIncr, countDecr]
      | incrOp =>
          rw [show ssRun (SSOp.incrOp :: rest) s = ssRun rest s.incr from rfl, ih]
          simp [SharedState.incr, countIncr, countDecr]
          omega
      | decrOp =>
          rw [show ssRun (SSOp.decrOp :: rest) s =
            ssRun rest (s.decr_and_notify_all_children_done_awaiters).1 from rfl, ih]
          simp [SharedState.decr_and_notify_all_children_done_awaiters, countIncr, countDecr]
          omega

theorem srcReachNoStop_invariant {s : SrcState} (h : SrcReachNoStop s) :
    s.shared.should_stop = false ∧ s.monitorPC = .waiting ∧
      s.shared.child_ctr = 1 ∧ s.ingestPC ≠ .finished := by
  induction h with
  | init => exact ⟨rfl, rfl, rfl, by decide⟩
  | step hr hs ih =>
      obtain ⟨hstop, hmon, hctr, hing⟩ := ih
      cases hs with
      | child_exit h => exact ⟨hstop, hmon, hctr, hing⟩
      | monitor_wake h hpc => exact absurd (hstop ▸ h) (by decide)
      | monitor_decr hpc => exact absurd (hmon ▸ hpc) (by decide)
      | ingest_eof h hpc => exact ⟨hstop, hmon, hctr, by simp⟩
      | ingest_join hm hpc => exact absurd (hmon ▸ hm) (by decide)

theorem srcReach_invariant {s : SrcState} (h : SrcReach s) :
    (s.monitorPC ≠ .waiting → s.shared.should_stop = true) ∧
      s.shared.child_ctr = (if s.monitorPC = MonitorPC.done then 0 else 1) ∧
      (s.ingestPC = .finished → s.monitorPC = .done) := by
  induction h with
  | init => refine ⟨fun hc => absurd rfl hc, rfl, fun hf => absurd hf (by decide)⟩
  | step hr hs ih =>
      obtain ⟨hstop, hctr, hing⟩ := ih
      cases hs with
      | signal_stop => exact ⟨fun _ => rfl, hctr, hing⟩
      | child_exit h => exact ⟨hstop, hctr, hing⟩
      | monitor_wake h hpc =>
          refine ⟨fun _ => h, ?_, fun hf => ?_⟩
          · show _ = if MonitorPC.woken = MonitorPC.done then (0 : Int) else 1
            rw [if_neg (by decide)]
            rw [hpc, if_neg (by decide)] at hctr
            exact hctr
          · exact absurd (hpc ▸ hing hf) (by decide)
      | monitor_decr hpc =>
          refine ⟨fun _ => hstop (by rw [hpc]; decide), ?_, fun _ => rfl⟩
          rw [hpc, if_neg (by decide)] at hctr
          simp [SharedState.decr_and_notify_all_children_done_awaiters, hctr]
      | ingest_eof h hpc => exact ⟨hstop, hctr, by simp⟩
      | ingest_join hm hpc => exact ⟨hstop, hctr, fun _ => hm⟩

/-- C3: the claim as stated is false on the code: without `signalStop`
having been called, no reachable state of the per-source system has a
decremented counter or a terminated ingestion thread — the monitor
blocks in `wait_for_stop_signal`, which only a stop broadcast can end,
so killing the child (or its natural exit) alone never decreases the
coordinator's counter.  The second conjunct exhibits the concrete
stop-free run in which the child has exited and the read loop has ended
at end-of-stream, yet the counter still reads 1. -/
theorem C3_counterexample :
    (¬∃ s : SrcState, SrcReachNoStop s ∧
        (s.shared.child_ctr < 1 ∨ s.ingestPC = IngestPC.finished)) ∧
      SrcReachNoStop { shared := { should_stop := false, child_ctr := 1 },
                       childRunning := false, eofReached := true, monitorPC := .waiting,
                       ingestPC := .joining } := by
  constructor
  · rintro ⟨s, hreach, hbad⟩
    obtain ⟨-, -, hctr, hing⟩ := srcReachNoStop_invariant hreach
    rcases hbad with hlt | hfin
    · rw [hctr] at hlt
      exact absurd hlt (by decide)
    · exact hing hfin
  · exact SrcReachNoStop.step
      (SrcReachNoStop.step SrcReachNoStop.init (SrcStep.child_exit srcInit rfl))
      (SrcStep.ingest_eof _ rfl rfl)

/-- C3 (amended): on the normal path the counter is decremented exactly
once, by the monitor task, and only after the monitor observes the stop
signal: in every reachable state the counter reads 1 until the
monitor's decrement and 0 afterwards, the monitor's decrement implies
the stop flag was set (so a decrement without `signalStop` is
impossible), and full termination of the ingestion task implies the
monitor has decremented.  Killing the external process (or its natural
exit) ends the read loop via end-of-stream without the ingestion task
polling the stop flag, but the decrement — and with it the counter
decrease — waits for the stop broadcast; one complete run reaching a
terminated ingestion task with counter 0 exists. -/
theorem C3_monitor_decrement :
    (∀ s : SrcState, SrcReach s →
        (s.monitorPC = MonitorPC.done → s.shared.should_stop = true) ∧
        s.shared.child_ctr = (if s.monitorPC = MonitorPC.done then 0 else 1) ∧
        (s.ingestPC = IngestPC.finished → s.monitorPC = MonitorPC.done)) ∧
      (∃ s : SrcState, SrcReach s ∧ s.ingestPC = IngestPC.finished ∧
        s.shared.child_ctr = 0 ∧ s.shared.should_stop = true) := by
  constructor
  · intro s hs
    obtain ⟨hstop, hctr, hing⟩ := srcReach_invariant hs
    exact ⟨fun hd => hstop (by rw [hd]; decide), hctr, hing⟩
  · refine ⟨{ shared := { should_stop := true, child_ctr := 0 }, childRunning := false,
              eofReached := true, monitorPC := .done, ingestPC := .finished }, ?_, rfl, rfl, rfl⟩
    exact SrcReach.step (SrcReach.step (SrcReach.step (SrcReach.step
      (SrcReach.step SrcReach.init (SrcStep.signal_stop srcInit))
      (SrcStep.monitor_wake _ rfl rfl))
      (SrcStep.monitor_decr _ rfl))
      (SrcStep.ingest_eof _ rfl rfl))
      (SrcStep.ingest_join _ rfl rfl)

/-- C3 witness: the amended theorem's invariant evaluated at the
concrete reachable state right after `signalStop`: the monitor has not
yet decremented and the counter still reads 1. -/
theorem C3_witness :
    ({ shared := { should_stop := true, child_ctr := 1 }, childRunning := true,
       eofReached := false, monitorPC := .waiting,
       ingestPC := .reading } : SrcState).shared.child_ctr =
      (if ({ shared := { should_stop := true, child_ctr := 1 }, childRunning := true,
             eofReached := false, monitorPC := .waiting,
             ingestPC := .reading } : SrcState).monitorPC = MonitorPC.done then 0 else 1) :=
  (C3_monitor_decrement.1
    { shared := { should_stop := true, child_ctr := 1 }, childRunning := true,
      eofReached := false, monitorPC := .waiting, ingestPC := .reading }
    (SrcReach.step SrcReach.init (SrcStep.signal_stop srcInit))).2.1

/-- C8: `SharedState::stop` is idempotent — applying it twice from any
state yields the same state as applying it once; after `stop` the flag
is true, so every current and future `wait_for_stop_signal` caller is
unblocked; and no operation of `SharedState` ever resets the flag: once
true it stays true under stop, incr and the decrement. -/
theorem C8_stop_idempotent :
    (∀ s : SharedState, s.stop.stop = s.stop) ∧
      (∀ s : SharedState, s.stop.should_stop = true) ∧
      (∀ s : SharedState, SharedState.wait_for_stop_signal_returns s.stop) ∧
      (∀ (op : SSOp) (s : SharedState), s.should_stop = true →
        (ssApply op s).should_stop = true) := by
  refine ⟨fun s => rfl, fun s => rfl, fun s => rfl, fun op s h => ?_⟩
  cases op
  · exact rfl
  · exact h
  · exact h

/-- C8 witness: idempotence evaluated at a concrete state, and flag
preservation evaluated for a subsequent `incr`. -/
theorem C8_witness :
    SharedState.new.incr.stop.stop = SharedState.new.incr.stop ∧
      (ssApply SSOp.incrOp SharedState.new.stop).should_stop = true :=
  ⟨C8_stop_idempotent.1 SharedState.new.incr,
    C8_stop_idempotent.2.2.2 SSOp.incrOp SharedState.new.stop
      (C8_stop_idempotent.2.1 SharedState.new)⟩

/-- C9: under the discipline that in every prefix of the operation
trace the decrements never outnumber the increments, the counter is
greater than or equal to 0 at every point of the run obtained from a
fresh `SharedState`; and the decrement that takes the counter from
positive to 0 fires the all-children-done notification and leaves a
state in which `wait_all_children_done` returns. -/
theorem C9_counter_invariant :
    (∀ ops : List SSOp,
        (∀ p : List SSOp, p <+: ops → countDecr p ≤ countIncr p) →
        ∀ p : List SSOp, p <+: ops → (ssRun p SharedState.new).child_ctr ≥ 0) ∧
      (∀ s : SharedState, s.child_ctr > 0 →
        (s.decr_and_notify_all_children_done_awaiters).1.child_ctr = 0 →
          (s.decr_and_notify_all_children_done_awaiters).2 = true ∧
          SharedState.wait_all_children_done_returns
            (s.decr_and_notify_all_children_done_awaiters).1) := by
  constructor
  · intro ops hdisc p hp
    have hc := ssRun_ctr p SharedState.new
    have hd := hdisc p hp
    rw [hc]
    show (0 : Int) + countIncr p - countDecr p ≥ 0
    omega
  · intro s hpos h0
    have hctr : s.child_ctr - 1 = 0 := h0
    constructor
    · show (s.child_ctr - 1 == 0) = true
      rw [beq_iff_eq]
      exact hctr
    · show ¬(s.child_ctr - 1 > 0)
      omega

/-- C9 witness: the invariant evaluated on the balanced concrete trace
incr, incr, decr, decr, and the notification fired by the decrement
that takes the counter from 1 to 0. -/
theorem C9_witness :
    (ssRun [SSOp.incrOp, SSOp.incrOp, SSOp.decrOp, SSOp.decrOp] SharedState.new).child_ctr ≥ 0 ∧
      (SharedState.new.incr.decr_and_notify_all_children_done_awaiters).2 = true ∧
      SharedState.wait_all_children_done_returns
        (SharedState.new.incr.decr_and_notify_all_children_done_awaiters).1 := by
  have h2 := C9_counter_invariant.2 SharedState.new.incr (by decide) (by decide)
  refine ⟨?_, h2.1, h2.2⟩
  refine C9_counter_invariant.1 [SSOp.incrOp, SSOp.incrOp, SSOp.decrOp, SSOp.decrOp]
    (fun p hp => ?_) [SSOp.incrOp, SSOp.incrOp, SSOp.decrOp, SSOp.decrOp] (by decide)
  rw [← List.mem_inits] at hp
  fin_cases hp <;> decide

/-- C1: the claim as stated is false on the code: the spec's reference
definition renders string leaves unquoted, but `flatten_json` inserts the
leaf's `to_string()`, which is its JSON serialization — quoted.  On the
concrete input `{"a":"x"}` the code yields the mapping `a ↦ "x"` (with
quotes in the value), not `a ↦ x`. -/
theorem C1_counterexample :
    flatten_json (Json.obj [("a", Json.str "x")]) ≠
      spec_flatten_as_written (Json.obj [("a", Json.str "x")]) ∧
      flatten_json (Json.obj [("a", Json.str "x")]) = [("a", "\"x\"")] := by
  constructor
  · decide
  · decide

/-- C1 (amended): for every well-formed JSON value, `flatten_json`
produces exactly the mapping of the spec's reference definition with
string leaves rendered as their JSON serialization (quoted, escaped)
instead of unquoted; in particular flattening
`{"a":{"b":1},"c":[10,20]}` yields exactly
`{"a.b":"1","c[0]":"10","c[1]":"20"}` and flattening the empty object
yields the empty mapping. -/
theorem C1_flatten_matches_amended_spec :
    (∀ json : Json, flatten_json json = spec_flatten_amended json) ∧
      flatten_json (Json.obj [("a", Json.obj [("b", Json.num 1)]),
          ("c", Json.arr [Json.num 10, Json.num 20])]) =
        [("a.b", "1"), ("c[0]", "10"), ("c[1]", "20")] ∧
      flatten_json (Json.obj []) = [] := by
  refine ⟨fun json => ?_, by decide, by decide⟩
  simp only [flatten_json, spec_flatten_amended]
  exact flatten_eq_insertAll json "" []

/-- C2: the claim as stated is false on the code: a line that parses to
a non-object top-level value (here the line "[1,2]", which parses to the
JSON array [1,2]) is logged and skipped by `transformation` — it is
dropped, not inserted as a `raw_unparsable_line` fallback record. -/
theorem C2_counterexample :
    transformation_line "[1,2]" (some (Json.arr [Json.num 1, Json.num 2])) =
        LineOutcome.skipped ∧
      transformation_line "[1,2]" (some (Json.arr [Json.num 1, Json.num 2])) ≠
        LineOutcome.inserted [(RAW_UNPARSABLE_COL, "[1,2]")] := by
  constructor
  · decide
  · decide

/-- C2 (amended): only a line that fails JSON parsing is routed to the
fallback column — it is inserted as the one-field record mapping
`raw_unparsable_line` to the original line verbatim, never dropped; a
line that parses to a non-object top-level value is logged and skipped
(dropped), while a top-level object is flattened and inserted. -/
theorem C2_parse_failure_fallback :
    (∀ line : String,
        transformation_line line none = .inserted [(RAW_UNPARSABLE_COL, line)]) ∧
      (∀ (line : String) (v : Json), v.is_object_value = false →
        transformation_line line (some v) = .skipped) ∧
      (∀ (line : String) (v : Json), v.is_object_value = true →
        transformation_line line (some v) = .inserted (flatten_json v)) := by
  refine ⟨fun line => rfl, fun line v h => ?_, fun line v h => ?_⟩
  · simp [transformation_line, h]
  · simp [transformation_line, h]

/-- C2 witness: the amended theorem evaluated on a parse failure, a
non-object line and an object line. -/
theorem C2_witness :
    transformation_line "not json" none =
        LineOutcome.inserted [(RAW_UNPARSABLE_COL, "not json")] ∧
      transformation_line "7" (some (Json.num 7)) = LineOutcome.skipped ∧
      transformation_line "\x7b\x7d" (some (Json.obj [])) = LineOutcome.inserted [] :=
  ⟨C2_parse_failure_fallback.1 "not json",
    C2_parse_failure_fallback.2.1 "7" (Json.num 7) rfl,
    (C2_parse_failure_fallback.2.2 "\x7b\x7d" (Json.obj []) rfl).trans (by decide)⟩

/-- C7: the claim as stated is false on the code: the sanitization maps
all of space, dot, dash, slash and backslash to the same underscore, so
it is not 1:1 — the distinct commands "a b" and "a.b" derive the same
table identifier "a_b". -/
theorem C7_counterexample :
    table_src_name "a b".data = table_src_name "a.b".data ∧ "a b".data ≠ "a.b".data := by
  constructor
  · decide
  · decide

/-- C7 (amended): the sanitization replaces each of space, '.', '-',
'/', '\' with an underscore and '~' with "HOME" (leaving every other
character unchanged, character by character), and is deterministic —
re-adding the same raw command string targets the same table — but it is
not injective: distinct source command strings may derive the same table
identifier. -/
theorem C7_sanitization :
    (∀ cmd : List Char, table_src_name cmd = char_by_char sanitize_char cmd) ∧
      (∀ c1 c2 : List Char, c1 = c2 → table_src_name c1 = table_src_name c2) := by
  refine ⟨fun cmd => ?_, fun c1 c2 h => h ▸ rfl⟩
  induction cmd with
  | nil => decide
  | cons c cs ih =>
      have : c :: cs = [c] ++ cs := rfl
      rw [this, table_src_name_append, table_src_name_single, ih]
      rfl

/-- C7 witness: the amended theorem evaluated on a concrete command. -/
theorem C7_witness :
    table_src_name "tail -f ~/x.log".data =
        char_by_char sanitize_char "tail -f ~/x.log".data ∧
      table_src_name "ls".data = table_src_name "ls".data :=
  ⟨C7_sanitization.1 "tail -f ~/x.log".data, C7_sanitization.2 "ls".data "ls".data rfl⟩

/-- C4: the claim as stated is false on the code: `insert_data` adds
new column names to the in-memory known-column set during the initial
scan, before the migration runs.  On the concrete call whose migration
always fails, the call returns `SchemaManipulationError` yet the
known-column set has grown from `[raw_unparsable_line]` to
`[raw_unparsable_line, x]`. -/
theorem C4_counterexample :
    (insert_data { col_lookup := [RAW_UNPARSABLE_COL], table_name := "t" } [RAW_UNPARSABLE_COL]
          [("x", "1")] true (fun _ => Except.error "disk full") (fun _ => Except.ok 1)).2.2 =
        Except.error (StorageInsertionError.SchemaManipulationError "disk full") ∧
      (insert_data { col_lookup := [RAW_UNPARSABLE_COL], table_name := "t" } [RAW_UNPARSABLE_COL]
          [("x", "1")] true (fun _ => Except.error "disk full") (fun _ => Except.ok 1)).1.col_lookup =
        [RAW_UNPARSABLE_COL, "x"] ∧
      ([RAW_UNPARSABLE_COL, "x"] : List String) ≠ [RAW_UNPARSABLE_COL] := by
  refine ⟨rfl, rfl, by decide⟩

/-- C4 (amended): the set of new columns is computed as data.keys minus
the known-column set, but the new names are added to the in-memory
known-column set immediately during that scan, before the migration
statement is executed with bounded retry; hence if `insert_data` returns
`SchemaManipulationError`, the in-memory known-column set already
contains the new names (it equals old ∪ data.keys), while the table
itself gains no column. -/
theorem C4_schema_migration_state :
    ∀ (t : EvolvingWideTable) (db_cols : List String) (data : List (String × String))
      (migF : Nat → Except String Unit) (insF : Nat → Except String Nat),
      (insert_data t db_cols data true migF insF).1.col_lookup =
          t.col_lookup ++ (scan_new_cols t.col_lookup data).1 ∧
      (∀ k, k ∈ (scan_new_cols t.col_lookup data).1 ↔
          k ∉ t.col_lookup ∧ k ∈ data.map Prod.fst) ∧
      (∀ e, attempt_with_retry MAX_DB_WRITE_ATTEMPTS migF = Except.error e →
        (insert_data t db_cols data true migF insF).2.2 =
            Except.error (StorageInsertionError.SchemaManipulationError e) ∧
          (insert_data t db_cols data true migF insF).2.1 = db_cols) := by
  intro t db_cols data migF insF
  refine ⟨?_, fun k => scan_new_cols_new_mem data t.col_lookup k,
    fun e he => insert_data_mig_error t db_cols data migF insF e he⟩
  rw [insert_data_fst, ← scan_new_cols_snd]

/-- C4 witness: the amended theorem applied to a concrete failing
migration — the error is wrapped as `SchemaManipulationError` and the
in-memory set has absorbed the new key "b". -/
theorem C4_witness :
    (insert_data { col_lookup := ["a"], table_name := "w" } ["a"] [("b", "2")] true
          (fun _ => Except.error "locked") (fun _ => Except.ok 1)).2.2 =
        Except.error (StorageInsertionError.SchemaManipulationError "locked") ∧
      (insert_data { col_lookup := ["a"], table_name := "w" } ["a"] [("b", "2")] true
          (fun _ => Except.error "locked") (fun _ => Except.ok 1)).1.col_lookup =
        ["a"] ++ (scan_new_cols ["a"] [("b", "2")]).1 := by
  have h := C4_schema_migration_state { col_lookup := ["a"], table_name := "w" } ["a"]
    [("b", "2")] (fun _ => Except.error "locked") (fun _ => Except.ok 1)
  exact ⟨(h.2.2 "locked" rfl).1, h.1⟩

/-- C5: the claim as stated is false on the code: `attempt_with_retry`
invokes the unit of work once and then up to `MAX_DB_WRITE_ATTEMPTS = 3`
more times, i.e. up to 4 total invocations, not a maximum of 3 total
attempts.  On the outcome sequence error, error, error, ok the code
returns the success produced by the fourth call, where the claim's
three-total-attempt policy surfaces the last error of the first three. -/
theorem C5_counterexample :
    attempt_with_retry 3
        (fun i => if i = 3 then Except.ok 7 else Except.error ("attempt " ++ toString i)) =
        Except.ok 7 ∧
      spec_retry_total 3
        (fun i => if i = 3 then Except.ok 7 else Except.error ("attempt " ++ toString i)) =
        Except.error "attempt 2" := by
  constructor
  · rfl
  · rfl

/-- C5 (amended): the shared combinator makes an initial attempt plus up
to `MAX_DB_WRITE_ATTEMPTS = 3` retries (at most four invocations in
all) with a fixed delay between attempts; if any invocation within that
budget succeeds the combinator returns that success with no error, after
exhausting the budget it surfaces the last error, and `insert_data`
wraps the surfaced error in the operation-specific kind —
`SchemaManipulationError` for the migration, `RecordInsertionError` for
the insert. -/
theorem C5_retry_policy :
    (∀ (T : Type) (f : Nat → Except String T),
        (∀ i, i ≤ MAX_DB_WRITE_ATTEMPTS → ∃ e, f i = Except.error e) →
          attempt_with_retry MAX_DB_WRITE_ATTEMPTS f = f MAX_DB_WRITE_ATTEMPTS) ∧
      (∀ (T : Type) (i : Nat) (f : Nat → Except String T) (t : T),
        i ≤ MAX_DB_WRITE_ATTEMPTS → f i = Except.ok t →
        (∀ j, j < i → ∃ e, f j = Except.error e) →
          attempt_with_retry MAX_DB_WRITE_ATTEMPTS f = Except.ok t) ∧
      (∀ (t : EvolvingWideTable) (db_cols : List String) (data : List (String × String))
          (migF : Nat → Except String Unit) (insF : Nat → Except String Nat) (e : String),
        attempt_with_retry MAX_DB_WRITE_ATTEMPTS migF = Except.error e →
          (insert_data t db_cols data true migF insF).2.2 =
            Except.error (StorageInsertionError.SchemaManipulationError e)) ∧
      (∀ (t : EvolvingWideTable) (db_cols : List String) (data : List (String × String))
          (migF : Nat → Except String Unit) (insF : Nat → Except String Nat) (e : String),
        attempt_with_retry MAX_DB_WRITE_ATTEMPTS migF = Except.ok () →
        attempt_with_retry MAX_DB_WRITE_ATTEMPTS insF = Except.error e →
          (insert_data t db_cols data true migF insF).2.2 =
            Except.error (StorageInsertionError.RecordInsertionError e)) ∧
      (∀ (t : EvolvingWideTable) (db_cols : List String) (data : List (String × String))
          (migF : Nat → Except String Unit) (insF : Nat → Except String Nat) (rows : Nat),
        attempt_with_retry MAX_DB_WRITE_ATTEMPTS migF = Except.ok () →
        attempt_with_retry MAX_DB_WRITE_ATTEMPTS insF = Except.ok rows →
          (insert_data t db_cols data true migF insF).2.2 = Except.ok ()) :=
  ⟨fun _ f h => attempt_with_retry_all_error MAX_DB_WRITE_ATTEMPTS f h,
    fun _ i f t hle hok herr => attempt_with_retry_first_ok MAX_DB_WRITE_ATTEMPTS i f t hle hok herr,
    fun t db_cols data migF insF e he =>
      (insert_data_mig_error t db_cols data migF insF e he).1,
    fun t db_cols data migF insF e hmig hins =>
      insert_data_ins_error t db_cols data migF insF e hmig hins,
    fun t db_cols data migF insF rows hmig hins =>
      insert_data_both_ok t db_cols data migF insF rows hmig hins⟩

/-- C5 witness: a permanently failing unit of work surfaces its last
error, and a unit of work failing once then succeeding returns the
success. -/
theorem C5_witness :
    attempt_with_retry MAX_DB_WRITE_ATTEMPTS
        (fun _ => (Except.error "down" : Except String Nat)) = Except.error "down" ∧
      attempt_with_retry MAX_DB_WRITE_ATTEMPTS
        (fun i => if i = 1 then Except.ok 3 else (Except.error "busy" : Except String Nat)) =
        Except.ok 3 :=
  ⟨C5_retry_policy.1 Nat (fun _ => Except.error "down") (fun _ _ => ⟨"down", rfl⟩),
    C5_retry_policy.2.1 Nat 1 (fun i => if i = 1 then Except.ok 3 else Except.error "busy") 3
      (by decide) rfl
      (fun j hj => ⟨"busy", by have hj0 : j = 0 := Nat.lt_one_iff.mp hj; subst hj0; rfl⟩)⟩

theorem run_inserts_cols (calls : List InsertCall) :
    ∀ (t : EvolvingWideTable) (db_cols : List String),
      (∀ k, k ∈ t.col_lookup ↔ k ∈ db_cols) →
      (∀ call ∈ calls, call.lock_ok = true ∧
        attempt_with_retry MAX_DB_WRITE_ATTEMPTS call.migF = Except.ok ()) →
      ∀ col, col ∈ (run_inserts t db_cols calls).2 ↔
        col ∈ db_cols ∨ ∃ call ∈ calls, col ∈ call.data.map Prod.fst := by
  induction calls with
  | nil => intro t db_cols _ _ col; simp [run_inserts]
  | cons call rest ih =>
      intro t db_cols hinv hcalls col
      obtain ⟨hlock, hmig⟩ := hcalls call (List.mem_cons_self call rest)
      simp only [run_inserts]
      rw [hlock, insert_data_fst,
        insert_data_cols_mig_ok t db_cols call.data call.migF call.insF hmig]
      rw [ih _ _ (fun k => by
        simp only [scan_new_cols_lookup_mem, List.mem_append, scan_new_cols_new_mem, hinv]
        tauto) (fun c hc => hcalls c (List.mem_cons_of_mem call hc)) col]
      simp only [List.mem_append, scan_new_cols_new_mem, List.mem_cons, hinv]
      constructor
      · rintro ((hdb | ⟨hnk, hkeys⟩) | ⟨c, hc, hcol⟩)
        · exact Or.inl hdb
        · exact Or.inr ⟨call, Or.inl rfl, hkeys⟩
        · exact Or.inr ⟨c, Or.inr hc, hcol⟩
      · rintro (hdb | ⟨c, hc | hc, hcol⟩)
        · exact Or.inl (Or.inl hdb)
        · subst hc
          by_cases hk : col ∈ t.col_lookup
          · exact Or.inl (Or.inl ((hinv col).mp hk))
          · exact Or.inl (Or.inr ⟨fun hcl => hk ((hinv col).mpr hcl), hcol⟩)
        · exact Or.inr ⟨c, hc, hcol⟩

theorem run_inserts_mono (calls : List InsertCall) :
    ∀ (t : EvolvingWideTable) (db_cols : List String) (col : String),
      col ∈ db_cols → col ∈ (run_inserts t db_cols calls).2 := by
  induction calls with
  | nil => intro t db_cols col h; simpa [run_inserts] using h
  | cons call rest ih =>
      intro t db_cols col h
      simp only [run_inserts]
      exact ih _ _ col
        (insert_data_cols_mono t db_cols call.data call.lock_ok call.migF call.insF col h)

/-- C6: for any sequence of records inserted into the same (freshly
created) table via `insert_data` whose migrations all succeed, the
table's column set after all insertions is exactly the union of the
records' key sets plus the reserved fallback column; and, for any
outcomes whatsoever, the column set only ever grows — no call to
`insert_data` removes a column. -/
theorem C6_columns_union_monotone :
    (∀ (name : String) (calls : List InsertCall),
        (∀ call ∈ calls, call.lock_ok = true ∧
          attempt_with_retry MAX_DB_WRITE_ATTEMPTS call.migF = Except.ok ()) →
        ∀ col,
          col ∈ (run_inserts (EvolvingWideTable.new_fresh name).1
              (EvolvingWideTable.new_fresh name).2 calls).2 ↔
            col = RAW_UNPARSABLE_COL ∨ ∃ call ∈ calls, col ∈ call.data.map Prod.fst) ∧
      (∀ (t : EvolvingWideTable) (db_cols : List String) (calls : List InsertCall)
          (col : String), col ∈ db_cols → col ∈ (run_inserts t db_cols calls).2) := by
  constructor
  · intro name calls hcalls col
    have h := run_inserts_cols calls (EvolvingWideTable.new_fresh name).1
      (EvolvingWideTable.new_fresh name).2
      (fun k => by simp [EvolvingWideTable.new_fresh]) hcalls col
    simpa [EvolvingWideTable.new_fresh] using h
  · intro t db_cols calls col h
    exact run_inserts_mono calls t db_cols col h

/-- C6 witness: inserting the records x=1 then y=2 into a fresh table
(all operations succeeding) yields a table whose columns are
characterized by the union property; the property is evaluated at the
column "y". -/
theorem C6_witness :
    "y" ∈ (run_inserts (EvolvingWideTable.new_fresh "tbl").1 (EvolvingWideTable.new_fresh "tbl").2
        [call_x, call_y]).2 ↔
      "y" = RAW_UNPARSABLE_COL ∨ ∃ call ∈ [call_x, call_y], "y" ∈ call.data.map Prod.fst :=
  C6_columns_union_monotone.1 "tbl" [call_x, call_y] (by
    intro call hc
    fin_cases hc
    · exact ⟨rfl, rfl⟩
    · exact ⟨rfl, rfl⟩) "y"

/-- C10: for every top-level scalar JSON value (neither an object nor an
array), `flatten_json` returns the single-entry mapping from the empty
string to the scalar's serialized text — the empty-string column name is
what would be handed to `insert_data` if such a value were flattened. -/
theorem C10_scalar_flatten (j : Json) (h : j.is_scalar = true) :
    flatten_json j = [("", scalarRepr j)] := by
  cases j with
  | null => rfl
  | bool b => rfl
  | num n => rfl
  | str s => rfl
  | arr elems => simp [Json.is_scalar] at h
  | obj fields => simp [Json.is_scalar] at h

/-- C10 witness: flattening the top-level scalar 5 yields the
single-entry mapping from the empty column name to "5". -/
theorem C10_witness :
    Json.is_scalar (Json.num 5) = true ∧ flatten_json (Json.num 5) = [("", "5")] :=
  ⟨rfl, (C10_scalar_flatten (Json.num 5) rfl).trans (by decide)⟩

end Logparsely
